import Mathlib

/-!
Verification of the playing-surface detection and acquisition core
(`surface.py` of the Blackjack-Tracker repository).

The image-processing primitives (grayscale, blur, Canny, findContours,
approxPolyDP, arcLength, warpPerspective, resize, drawing) are external
library collaborators of the core.  They are embedded as an initial model:
an `Img` is a term recording which primitive produced it, and per-contour
collaborator answers (`arcLength`, `approxPolyDP`) are carried as data on
the `Contour` input, exactly as `detect` receives them from OpenCV.
`cv2.contourArea` is embedded exactly: it is the absolute value of the
Green-formula (shoelace) sum divided by two.  Wall-clock time in the
acquisition loop is embedded as a per-tick boolean carrying the value of
the code's elapsed-second test.
-/

namespace Surface

/-- Images as produced by the external image primitives.  A `raw` image is a
camera frame with its dimensions and an identifying tag; every other
constructor records the primitive that produced the image. -/
inductive Img where
  | raw (height width tag : ℕ)
  | resized (src : Img) (h : ℕ)
  | gray (src : Img)
  | bilateral (src : Img)
  | canny (src : Img)
  | withContour (src : Img) (idx : ℕ)
  | warped (src : Img) (w h : ℕ)
  | withTimer (src : Img) (count : ℕ)
  | withNotFound (src : Img)
deriving DecidableEq, Repr

/-- Pixel height of an image.  `imutils.resize(img, height=h)` produces height
`h`; `cv2.warpPerspective(img, M, (w, h))` produces height `h`; the drawing
and filtering primitives keep dimensions. -/
def Img.height : Img → ℕ
  | .raw h _ _ => h
  | .resized _ h => h
  | .gray s => s.height
  | .bilateral s => s.height
  | .canny s => s.height
  | .withContour s _ => s.height
  | .warped _ _ h => h
  | .withTimer s _ => s.height
  | .withNotFound s => s.height

/-- Pixel width of an image.  `imutils.resize` keeps the aspect ratio, so the
new width is the old width scaled by `h / old height` (integer part). -/
def Img.width : Img → ℕ
  | .raw _ w _ => w
  | .resized s h => s.width * h / s.height
  | .gray s => s.width
  | .bilateral s => s.width
  | .canny s => s.width
  | .withContour s _ => s.width
  | .warped _ w _ => w
  | .withTimer s _ => s.width
  | .withNotFound s => s.width

instance : Inhabited Img := ⟨.raw 0 0 0⟩

/-- One contour as handed to `detect` by `cv2.findContours` on the edge map of
the working (resized) copy: its points in working-copy coordinates, together
with the external collaborators' answers about it: `arcLength` is
`cv2.arcLength(c, closed=True)` and `approxPolyDP eps` is
`cv2.approxPolyDP(c, eps, closed=True)`. -/
structure Contour where
  points : List (Int × Int)
  arcLength : ℚ
  approxPolyDP : ℚ → List (Int × Int)

/-- Cyclic cross-product sum of the shoelace formula: `p` is the current
point, `p0` the first point of the contour (closing the polygon). -/
def crossSum (p : Int × Int) (rest : List (Int × Int)) (p0 : Int × Int) : Int :=
  match rest with
  | [] => p.1 * p0.2 - p0.1 * p.2
  | q :: qs => (p.1 * q.2 - q.1 * p.2) + crossSum q qs p0

/-- `cv2.contourArea`: absolute value of the Green-formula sum over the closed
point sequence, divided by two.  Fewer than three points give area 0. -/
def contourArea (pts : List (Int × Int)) : ℚ :=
  match pts with
  | [] => 0
  | p :: rest => ((crossSum p rest p).natAbs : ℚ) / 2

/-- Cutoff limit for detected surfaces (module constant `cutoff = 0.03`):
a surface is only valid if its relative area is at least this value. -/
def cutoff : ℚ := 3 / 100

/-- Polymetric approximation accuracy scaling factor (`POLY_ACC_CONST = 0.02`). -/
def POLY_ACC_CONST : ℚ := 2 / 100

/-- Index of the first minimum of a list of integers, as returned by
`np.argmin` (ties resolved to the earliest index; 0 on the empty list). -/
def argmin : List Int → ℕ
  | [] => 0
  | x :: xs =>
    match xs with
    | [] => 0
    | _ :: _ => if x ≤ xs.getD (argmin xs) 0 then 0 else argmin xs + 1

/-- Index of the first maximum of a list of integers, as returned by
`np.argmax` (ties resolved to the earliest index; 0 on the empty list). -/
def argmax : List Int → ℕ
  | [] => 0
  | x :: xs =>
    match xs with
    | [] => 0
    | _ :: _ => if xs.getD (argmax xs) 0 ≤ x then 0 else argmax xs + 1

/-- The `for i in range(...): if np.array_equal(...): np.delete(...); break`
loops of `detect`: remove the first occurrence of `p`, or `none` when `p`
never occurs (in the source the result variable then stays `None` and the
next array operation on it raises). -/
def deleteFirst : List (Int × Int) → (Int × Int) → Option (List (Int × Int))
  | [], _ => none
  | x :: xs, p => if x = p then some xs else (deleteFirst xs p).map (x :: ·)

/-- Corner classification of `detect` (source lines 92-116): the top-left
point has the smallest coordinate sum, the bottom-right the largest; both are
removed from the four points (first match wins), and of the two remaining
points the one with the smallest `np.diff` value — which is `y - x` — becomes
top-right, the one with the largest becomes bottom-left.  Returns
`(TL, TR, BR, BL)`, or `none` when the second removal loop finds no match and
the source raises. -/
def classifyCorners (rect_points : List (Int × Int)) :
    Option ((Int × Int) × (Int × Int) × (Int × Int) × (Int × Int)) :=
  let s := rect_points.map fun p => p.1 + p.2
  let top_left_point := rect_points.getD (argmin s) (0, 0)
  let bottom_right_point := rect_points.getD (argmax s) (0, 0)
  match deleteFirst rect_points top_left_point with
  | none => none
  | some temp =>
    match deleteFirst temp bottom_right_point with
    | none => none
    | some reduced_points =>
      let diff := reduced_points.map fun p => p.2 - p.1
      let top_right_point := reduced_points.getD (argmin diff) (0, 0)
      let bottom_left_point := reduced_points.getD (argmax diff) (0, 0)
      some (top_left_point, top_right_point, bottom_right_point, bottom_left_point)

/-- Result of `cv2.getPerspectiveTransform`, recorded by the four-point
correspondence it solves (the numeric 3×3 matrix itself belongs to the
external collaborator). -/
structure PerspectiveMatrix where
  src : List (ℚ × ℚ)
  dst : List (ℚ × ℚ)
deriving DecidableEq, Repr

/-- Structure to store information about the playing surface
(class `PlayingSurface` of the source, fields populated by `detect`). -/
structure PlayingSurface where
  name : String
  transform : Img
  contour : List (Int × Int)
  img_cnt : Img
  area : ℚ
  area_relative : ℚ
  perspective_matrix : PerspectiveMatrix
  width : ℕ
  height : ℕ
  dealer_region : ℕ × ℕ
  player_region : ℕ × ℕ
deriving DecidableEq, Repr

/-- The one runtime failure `detect` can raise: the degenerate-corner case in
which the second removal loop of corner classification never matches. -/
inductive DetectError where
  | degenerateCorners
deriving DecidableEq, Repr

instance (ε α : Type) [DecidableEq ε] [DecidableEq α] : DecidableEq (Except ε α) :=
  fun a b =>
    match a, b with
    | .ok x, .ok y =>
      if h : x = y then isTrue (by rw [h]) else isFalse (by simp [h])
    | .error x, .error y =>
      if h : x = y then isTrue (by rw [h]) else isFalse (by simp [h])
    | .ok _, .error _ => isFalse (by simp)
    | .error _, .ok _ => isFalse (by simp)

/-- Ranking relation of `sorted(contours, key=cv2.contourArea, reverse=True)`:
larger-area contours first. -/
def contourGe (a b : Contour) : Prop := contourArea b.points ≤ contourArea a.points

instance : DecidableRel contourGe :=
  fun a b => inferInstanceAs (Decidable (contourArea b.points ≤ contourArea a.points))

instance : IsTotal Contour contourGe := ⟨fun a b => le_total (contourArea b.points) (contourArea a.points)⟩

instance : IsTrans Contour contourGe := ⟨fun _ _ _ hab hbc => le_trans hbc hab⟩

/-- `sorted(contours, key=cv2.contourArea, reverse=True)[:5]`: the contours
ranked by area, largest first (stable), truncated to the largest five. -/
def topFive (contours : List Contour) : List Contour :=
  (List.insertionSort contourGe contours).take 5

/-- The candidate loop of `detect` (source lines 65-81): walk the ranked
contours with a running index, approximate each as a polygon with accuracy
`POLY_ACC_CONST` times its perimeter, and stop at the first whose
approximation has exactly four points, returning its index and
approximation; `none` when no candidate qualifies. -/
def findSurfaceCnt (contour_idx : ℕ) : List Contour → Option (ℕ × List (Int × Int))
  | [] => none
  | c :: rest =>
    let perimeter := c.arcLength
    let curr_cnt := c.approxPolyDP (POLY_ACC_CONST * perimeter)
    if curr_cnt.length = 4 then some (contour_idx, curr_cnt)
    else findSurfaceCnt (contour_idx + 1) rest

/-- The polygon approximation a contour contributes to the candidate loop. -/
def approxOf (c : Contour) : List (Int × Int) :=
  c.approxPolyDP (POLY_ACC_CONST * c.arcLength)

/-- `detect` (source lines 31-200): find the playing surface in the original
image.  `contours` is the answer of the external `cv2.findContours` on the
edge map of the working copy, in working-copy coordinates.  Returns
`.ok none` when no surface is found, `.ok (some ps)` on success, and
`.error .degenerateCorners` when corner classification raises. -/
def detect (image : Img) (contours : List Contour) :
    Except DetectError (Option PlayingSurface) :=
  let image_resize_value : ℚ := 300
  let ratio : ℚ := (image.height : ℚ) / image_resize_value
  let original_image := image
  let image := Img.resized image 300
  let im_gray := Img.gray image
  let im_blur := Img.bilateral im_gray
  let im_edge := Img.canny im_blur
  let contours := topFive contours
  match findSurfaceCnt 0 contours with
  | none => .ok none
  | some (contour_idx, surface_cnt) =>
    let image := Img.withContour image contour_idx
    match classifyCorners surface_cnt with
    | none => .error .degenerateCorners
    | some (top_left_point, top_right_point, bottom_right_point, bottom_left_point) =>
      let tl : ℚ × ℚ := ((top_left_point.1 : ℚ) * ratio, (top_left_point.2 : ℚ) * ratio)
      let tr : ℚ × ℚ := ((top_right_point.1 : ℚ) * ratio, (top_right_point.2 : ℚ) * ratio)
      let br : ℚ × ℚ := ((bottom_right_point.1 : ℚ) * ratio, (bottom_right_point.2 : ℚ) * ratio)
      let bl : ℚ × ℚ := ((bottom_left_point.1 : ℚ) * ratio, (bottom_left_point.2 : ℚ) * ratio)
      let rect : List (ℚ × ℚ) := [tl, tr, br, bl]
      -- Source lines 127-139 compute width/height estimates from corner
      -- distances; lines 141-142 overwrite both before any use, so only the
      -- overwriting assignments are observable:
      let height : ℕ := 800
      let width : ℕ := 9 * height / 5
      let dst : List (ℚ × ℚ) :=
        [(0, 0), ((width : ℚ) - 1, 0), ((width : ℚ) - 1, (height : ℚ) - 1), (0, (height : ℚ) - 1)]
      let persp_mtx : PerspectiveMatrix := ⟨rect, dst⟩
      let transformed := Img.warped original_image width height
      let transformed_area := contourArea surface_cnt
      let original_image_area : ℚ := (original_image.height : ℚ) * (original_image.width : ℚ)
      let relative_size := transformed_area / original_image_area
      if relative_size < cutoff then .ok none
      else
        .ok (some
          ⟨"primary", transformed, surface_cnt, image, transformed_area, relative_size,
            persp_mtx, width, height, (0, width / 2), (width / 2 + 1, width)⟩)

/-- Input of one iteration of the `get_surface` loop: the camera frame
returned by `cap.read()`, the external contour data for that frame,
the value of the code's elapsed-second test
`abs(test_time - curr_time) > 1` on this iteration (wall clock is an
external collaborator), and whether the cancel key was pressed. -/
structure TickInput where
  frame : Img
  contours : List Contour
  elapsedOver1 : Bool
  cancel : Bool

/-- What one loop iteration hands to `display`: the countdown-annotated
frame, the contoured or not-found frame, and the rectified frame when one
exists (the two-argument `display` call passes no third window). -/
structure Emission where
  timerFrame : Img
  contourFrame : Img
  rectFrame : Option Img
deriving DecidableEq, Repr

/-- Why a run of the acquisition loop ended: the countdown reached zero, the
user pressed the cancel key, or the modelled finite frame stream ran out
(the camera itself is unbounded; a finite trace is supplied to the model). -/
inductive ExitReason where
  | countdownZero
  | cancelled
  | outOfFrames
deriving DecidableEq, Repr

/-- Observable outcome of a run of the acquisition loop: the per-tick display
emissions, the returned surface, how often the countdown was decremented,
and why the loop ended. -/
structure RunResult where
  emissions : List Emission
  result : Option PlayingSurface
  decrements : ℕ
  exitReason : ExitReason
deriving DecidableEq, Repr

/-- The display/retention branch of one loop iteration (source lines
283-297): on success, show the new surface's contoured and rectified images
(resized to height 300) and hold that surface; on failure with a held
surface, show the not-found overlay but still the held surface's
rectification; on failure with nothing held, show only the overlay.
Returns the emission and the held surface after the tick. -/
def tickOutput (playing_surface valid_surface : Option PlayingSurface)
    (timer_disp orig_disp : Img) : Emission × Option PlayingSurface :=
  match playing_surface with
  | some ps =>
    (⟨timer_disp, Img.resized ps.img_cnt 300, some (Img.resized ps.transform 300)⟩, some ps)
  | none =>
    match valid_surface with
    | some vs =>
      (⟨timer_disp, Img.withNotFound orig_disp, some (Img.resized vs.transform 300)⟩, some vs)
    | none => (⟨timer_disp, Img.withNotFound orig_disp, none⟩, none)

/-- The `while count != 0` loop of `get_surface` (source lines 261-307),
run on a finite stream of tick inputs.  Each iteration reads a frame, runs
`detect` (a raised degenerate-corner error propagates out of the loop),
decrements the countdown when the iteration's elapsed-second test holds
(the source guards the decrement with the always-true `count != 0`),
annotates the countdown frame with the post-decrement count, branches on
the detection result, and finally polls the cancel key. -/
def getSurfaceRun : ℕ → Option PlayingSurface → List TickInput →
    Except DetectError RunResult
  | 0, valid_surface, _ => .ok ⟨[], valid_surface, 0, .countdownZero⟩
  | _ + 1, valid_surface, [] => .ok ⟨[], valid_surface, 0, .outOfFrames⟩
  | n + 1, valid_surface, t :: rest =>
    match detect t.frame t.contours with
    | .error e => .error e
    | .ok playing_surface =>
      let orig_disp := Img.resized t.frame 300
      let dec : ℕ := if n + 1 ≠ 0 ∧ t.elapsedOver1 = true then 1 else 0
      let count := n + 1 - dec
      let timer_disp := Img.withTimer orig_disp count
      let out := tickOutput playing_surface valid_surface timer_disp orig_disp
      if t.cancel = true then .ok ⟨[out.1], out.2, dec, .cancelled⟩
      else
        match getSurfaceRun count out.2 rest with
        | .error e => .error e
        | .ok r => .ok ⟨out.1 :: r.emissions, r.result, dec + r.decrements, r.exitReason⟩

/-- `get_surface(cap, count)` (source lines 255-309): increment the caller's
count by one, start with no valid surface, and run the countdown loop. -/
def get_surface (ticks : List TickInput) (count : ℕ) : Except DetectError RunResult :=
  getSurfaceRun (count + 1) none ticks

/-- The detection outcome of one tick, with a raised error flattened to
"no surface" (used only to describe runs that are known not to raise). -/
def detectResult (t : TickInput) : Option PlayingSurface :=
  match detect t.frame t.contours with
  | .ok o => o
  | .error _ => none

/-- The surface held after processing a sequence of ticks, starting from
`valid_surface`: each successful detection replaces the held surface. -/
def lastDetected (valid_surface : Option PlayingSurface) (ticks : List TickInput) :
    Option PlayingSurface :=
  ticks.foldl
    (fun acc t => match detectResult t with | some p => some p | none => acc)
    valid_surface

/-! ### Buffer-store model of `detect`

`detect` is also embedded as a state transformer on a store of image
buffers, to capture which numpy buffers each step allocates and which it
mutates in place.  `deepcopy`, `imutils.resize`, `cv2.cvtColor`,
`cv2.bilateralFilter`, `cv2.Canny`, `.copy()` and `cv2.warpPerspective`
all return freshly allocated buffers; the only in-place write is
`cv2.drawContours` onto the working copy. -/

/-- A store of image buffers; a buffer reference is an index into it. -/
abbrev Store := List Img

/-- Read a buffer from the store. -/
def readB (st : Store) (r : ℕ) : Img := st.getD r default

/-- The buffer effects of `detect` on a store, given the reference of the
caller's frame: follows the source's control flow, allocating one buffer per
primitive that returns a new array, writing in place only for
`cv2.drawContours(image, ...)` on the working copy, and stopping where the
source returns (or raises). -/
def detectBuffers (st0 : Store) (imageRef : ℕ) (contours : List Contour) : Store :=
  let originalRef := st0.length
  let st1 := st0 ++ [readB st0 imageRef]
  let workingRef := st1.length
  let st2 := st1 ++ [Img.resized (readB st1 imageRef) 300]
  let grayRef := st2.length
  let st3 := st2 ++ [Img.gray (readB st2 workingRef)]
  let blurRef := st3.length
  let st4 := st3 ++ [Img.bilateral (readB st3 grayRef)]
  let edgeRef := st4.length
  let st5 := st4 ++ [Img.canny (readB st4 blurRef)]
  let st6 := st5 ++ [readB st5 edgeRef]
  match findSurfaceCnt 0 (topFive contours) with
  | none => st6
  | some (contour_idx, surface_cnt) =>
    let st7 := st6.set workingRef (Img.withContour (readB st6 workingRef) contour_idx)
    match classifyCorners surface_cnt with
    | none => st7
    | some _ => st7 ++ [Img.warped (readB st7 originalRef) 1440 800]

/-! ### Concrete frames, contours and tick streams used as test inputs -/

/-- An axis-aligned square contour of the given side length, in working-copy
coordinates, whose polygon approximation returns its four corners. -/
def quadContour (side : Int) : Contour :=
  ⟨[(0, 0), (side, 0), (side, side), (0, side)], 4 * (side : ℚ),
    fun _ => [(0, 0), (side, 0), (side, side), (0, side)]⟩

/-- A tick whose 600×600 frame produces no contours, so detection fails. -/
def tickFail (tag : ℕ) : TickInput := ⟨Img.raw 600 600 tag, [], true, false⟩

/-- A tick whose 600×600 frame produces one square contour of the given side
length, so detection succeeds for sides of at least 104. -/
def tickSuccess (tag : ℕ) (side : Int) : TickInput :=
  ⟨Img.raw 600 600 tag, [quadContour side], true, false⟩

/-- The frame sequence fail, success, fail, success of the C6 scenario. -/
def scenarioTicks : List TickInput :=
  [tickFail 1, tickSuccess 2 110, tickFail 3, tickSuccess 4 120]

/-- A 300×300-frame contour whose relative area 2640/90000 is just below the
cutoff. -/
def lowContour : Contour :=
  ⟨[(0, 0), (60, 0), (60, 44), (0, 44)], 208,
    fun _ => [(0, 0), (60, 0), (60, 44), (0, 44)]⟩

/-- A 300×300-frame contour whose relative area 2700/90000 is exactly the
cutoff 0.03. -/
def boundContour : Contour :=
  ⟨[(0, 0), (60, 0), (60, 45), (0, 45)], 210,
    fun _ => [(0, 0), (60, 0), (60, 45), (0, 45)]⟩

/-- The surface `detect` produces on a 300×300 frame containing only
`boundContour` (relative area exactly at the cutoff). -/
def boundSurface : PlayingSurface :=
  ⟨"primary", .warped (.raw 300 300 0) 1440 800,
    [(0, 0), (60, 0), (60, 45), (0, 45)],
    .withContour (.resized (.raw 300 300 0) 300) 0, 2700, 3 / 100,
    ⟨[(0, 0), (60, 0), (60, 45), (0, 45)],
      [(0, 0), (1439, 0), (1439, 799), (0, 799)]⟩,
    1440, 800, (0, 720), (721, 1440)⟩

/-- The surface detected at tick 2 of the C6 scenario (side-110 square on a
600×600 frame, working-to-original ratio 2). -/
def scenarioSurface1 : PlayingSurface :=
  ⟨"primary", .warped (.raw 600 600 2) 1440 800,
    [(0, 0), (110, 0), (110, 110), (0, 110)],
    .withContour (.resized (.raw 600 600 2) 300) 0, 12100, 121 / 3600,
    ⟨[(0, 0), (220, 0), (220, 220), (0, 220)],
      [(0, 0), (1439, 0), (1439, 799), (0, 799)]⟩,
    1440, 800, (0, 720), (721, 1440)⟩

/-- The surface detected at tick 4 of the C6 scenario (side-120 square on a
600×600 frame). -/
def scenarioSurface2 : PlayingSurface :=
  ⟨"primary", .warped (.raw 600 600 4) 1440 800,
    [(0, 0), (120, 0), (120, 120), (0, 120)],
    .withContour (.resized (.raw 600 600 4) 300) 0, 14400, 1 / 25,
    ⟨[(0, 0), (240, 0), (240, 240), (0, 240)],
      [(0, 0), (1439, 0), (1439, 799), (0, 799)]⟩,
    1440, 800, (0, 720), (721, 1440)⟩

/-! ### Helper lemmas for the corner-classification machinery -/

theorem argmin_cons_cons (x y : Int) (ys : List Int) :
    argmin (x :: y :: ys) =
      if x ≤ (y :: ys).getD (argmin (y :: ys)) 0 then 0 else argmin (y :: ys) + 1 := rfl

theorem argmax_cons_cons (x y : Int) (ys : List Int) :
    argmax (x :: y :: ys) =
      if (y :: ys).getD (argmax (y :: ys)) 0 ≤ x then 0 else argmax (y :: ys) + 1 := rfl

theorem argmin_lt_length : ∀ (l : List Int), l ≠ [] → argmin l < l.length
  | [], h => absurd rfl h
  | x :: xs, _ => by
    cases xs with
    | nil => simp [argmin]
    | cons y ys =>
      have ih := argmin_lt_length (y :: ys) (by simp)
      rw [argmin_cons_cons]
      split
      · simp
      · simpa using Nat.succ_lt_succ ih

theorem argmax_lt_length : ∀ (l : List Int), l ≠ [] → argmax l < l.length
  | [], h => absurd rfl h
  | x :: xs, _ => by
    cases xs with
    | nil => simp [argmax]
    | cons y ys =>
      have ih := argmax_lt_length (y :: ys) (by simp)
      rw [argmax_cons_cons]
      split
      · simp
      · simpa using Nat.succ_lt_succ ih

theorem getD_argmin_le : ∀ (l : List Int), ∀ y ∈ l, l.getD (argmin l) 0 ≤ y
  | x :: xs, y, hy => by
    cases xs with
    | nil =>
      rcases List.mem_singleton.mp hy with rfl
      simp [argmin]
    | cons z zs =>
      have ih := getD_argmin_le (z :: zs)
      rw [argmin_cons_cons]
      split
      · rename_i hle
        rcases List.mem_cons.mp hy with rfl | hy2
        · simp
        · exact le_trans (by simpa using hle) (by simpa using ih y hy2)
      · rename_i hgt
        rw [List.getD_cons_succ]
        rcases List.mem_cons.mp hy with rfl | hy2
        · exact le_of_lt (lt_of_not_le hgt)
        · exact ih y hy2

theorem le_getD_argmax : ∀ (l : List Int), ∀ y ∈ l, y ≤ l.getD (argmax l) 0
  | x :: xs, y, hy => by
    cases xs with
    | nil =>
      rcases List.mem_singleton.mp hy with rfl
      simp [argmax]
    | cons z zs =>
      have ih := le_getD_argmax (z :: zs)
      rw [argmax_cons_cons]
      split
      · rename_i hle
        rcases List.mem_cons.mp hy with rfl | hy2
        · simp
        · exact le_trans (by simpa using ih y hy2) (by simpa using hle)
      · rename_i hgt
        rw [List.getD_cons_succ]
        rcases List.mem_cons.mp hy with rfl | hy2
        · exact le_of_lt (lt_of_not_le hgt)
        · exact ih y hy2

theorem getD_argmin_mem (l : List Int) (h : l ≠ []) : l.getD (argmin l) 0 ∈ l := by
  rw [List.getD_eq_getElem l 0 (argmin_lt_length l h)]
  exact List.getElem_mem _

theorem getD_argmax_mem (l : List Int) (h : l ≠ []) : l.getD (argmax l) 0 ∈ l := by
  rw [List.getD_eq_getElem l 0 (argmax_lt_length l h)]
  exact List.getElem_mem _

theorem argmin_eq_zero (l : List Int) (c : Int) (hne : l ≠ []) (h : ∀ y ∈ l, y = c) :
    argmin l = 0 := by
  cases l with
  | nil => rfl
  | cons x xs =>
    cases xs with
    | nil => rfl
    | cons z zs =>
      rw [argmin_cons_cons, if_pos]
      have h1 : x = c := h x (List.mem_cons_self _ _)
      have h2 : (z :: zs).getD (argmin (z :: zs)) 0 = c :=
        h _ (List.mem_cons_of_mem _ (getD_argmin_mem (z :: zs) (by simp)))
      rw [h1, h2]

theorem argmax_eq_zero (l : List Int) (c : Int) (hne : l ≠ []) (h : ∀ y ∈ l, y = c) :
    argmax l = 0 := by
  cases l with
  | nil => rfl
  | cons x xs =>
    cases xs with
    | nil => rfl
    | cons z zs =>
      rw [argmax_cons_cons, if_pos]
      have h1 : x = c := h x (List.mem_cons_self _ _)
      have h2 : (z :: zs).getD (argmax (z :: zs)) 0 = c :=
        h _ (List.mem_cons_of_mem _ (getD_argmax_mem (z :: zs) (by simp)))
      rw [h1, h2]

theorem deleteFirst_of_mem :
    ∀ (l : List (Int × Int)) (p : Int × Int), p ∈ l → deleteFirst l p = some (l.erase p)
  | x :: xs, p, hp => by
    by_cases hx : x = p
    · simp [deleteFirst, hx, List.erase_cons]
    · have hxs : p ∈ xs := by
        rcases List.mem_cons.mp hp with h | h
        · exact absurd h.symm hx
        · exact h
      simp [deleteFirst, hx, deleteFirst_of_mem xs p hxs, List.erase_cons,
        fun h => hx (beq_iff_eq.mp h)]

theorem deleteFirst_of_not_mem :
    ∀ (l : List (Int × Int)) (p : Int × Int), p ∉ l → deleteFirst l p = none
  | [], _, _ => rfl
  | x :: xs, p, hp => by
    have hx : ¬x = p := fun h => hp (h ▸ List.mem_cons_self x xs)
    have hxs : p ∉ xs := fun h => hp (List.mem_cons_of_mem x h)
    simp [deleteFirst, hx, deleteFirst_of_not_mem xs p hxs]

theorem getD_map_eq (g : Int × Int → Int) (l : List (Int × Int)) (i : ℕ)
    (h : i < l.length) : (l.map g).getD i 0 = g (l.getD i (0, 0)) := by
  rw [List.getD_eq_getElem _ _ (by simpa using h), List.getD_eq_getElem _ _ h,
    List.getElem_map]

/-- Unfolding equation of `classifyCorners` when both removal loops match. -/
theorem classifyCorners_eq (pts temp reduced : List (Int × Int))
    (h1 : deleteFirst pts (pts.getD (argmin (pts.map fun p => p.1 + p.2)) (0, 0)) = some temp)
    (h2 : deleteFirst temp (pts.getD (argmax (pts.map fun p => p.1 + p.2)) (0, 0)) =
      some reduced) :
    classifyCorners pts =
      some (pts.getD (argmin (pts.map fun p => p.1 + p.2)) (0, 0),
        reduced.getD (argmin (reduced.map fun p => p.2 - p.1)) (0, 0),
        pts.getD (argmax (pts.map fun p => p.1 + p.2)) (0, 0),
        reduced.getD (argmax (reduced.map fun p => p.2 - p.1)) (0, 0)) := by
  simp only [classifyCorners, h1, h2]

theorem getD_argmin_map_le (g : Int × Int → Int) (l : List (Int × Int)) (hne : l ≠ []) :
    ∀ p ∈ l, g (l.getD (argmin (l.map g)) (0, 0)) ≤ g p := by
  intro p hp
  have hlt : argmin (l.map g) < l.length := by
    have := argmin_lt_length (l.map g) (by simpa using hne)
    simpa using this
  have := getD_argmin_le (l.map g) (g p) (List.mem_map_of_mem g hp)
  rwa [getD_map_eq g l _ hlt] at this

theorem le_getD_argmax_map (g : Int × Int → Int) (l : List (Int × Int)) (hne : l ≠ []) :
    ∀ p ∈ l, g p ≤ g (l.getD (argmax (l.map g)) (0, 0)) := by
  intro p hp
  have hlt : argmax (l.map g) < l.length := by
    have := argmax_lt_length (l.map g) (by simpa using hne)
    simpa using this
  have := le_getD_argmax (l.map g) (g p) (List.mem_map_of_mem g hp)
  rwa [getD_map_eq g l _ hlt] at this

theorem getD_argmin_map_mem (g : Int × Int → Int) (l : List (Int × Int)) (hne : l ≠ []) :
    l.getD (argmin (l.map g)) (0, 0) ∈ l := by
  have hlt : argmin (l.map g) < l.length := by
    have := argmin_lt_length (l.map g) (by simpa using hne)
    simpa using this
  rw [List.getD_eq_getElem _ _ hlt]
  exact List.getElem_mem _

theorem getD_argmax_map_mem (g : Int × Int → Int) (l : List (Int × Int)) (hne : l ≠ []) :
    l.getD (argmax (l.map g)) (0, 0) ∈ l := by
  have hlt : argmax (l.map g) < l.length := by
    have := argmax_lt_length (l.map g) (by simpa using hne)
    simpa using this
  rw [List.getD_eq_getElem _ _ hlt]
  exact List.getElem_mem _

theorem all_eq_of_min_eq_max (g : Int × Int → Int) (l : List (Int × Int)) (hne : l ≠ [])
    (h : g (l.getD (argmin (l.map g)) (0, 0)) = g (l.getD (argmax (l.map g)) (0, 0))) :
    ∀ p ∈ l, g p = g (l.getD (argmin (l.map g)) (0, 0)) :=
  fun p hp =>
    le_antisymm (le_trans (le_getD_argmax_map g l hne p hp) (le_of_eq h.symm))
      (getD_argmin_map_le g l hne p hp)

theorem tl_ne_br_of_pairwise_ne (pts : List (Int × Int)) (h4 : pts.length = 4)
    (hsum : (pts.map fun p => p.1 + p.2).Pairwise (· ≠ ·)) :
    pts.getD (argmin (pts.map fun p => p.1 + p.2)) (0, 0) ≠
      pts.getD (argmax (pts.map fun p => p.1 + p.2)) (0, 0) := by
  have hne : pts ≠ [] := by intro h; rw [h] at h4; simp at h4
  intro heq
  have hall : ∀ p ∈ pts, p.1 + p.2 =
      (pts.getD (argmin (pts.map fun p => p.1 + p.2)) (0, 0)).1 +
        (pts.getD (argmin (pts.map fun p => p.1 + p.2)) (0, 0)).2 :=
    all_eq_of_min_eq_max (fun p => p.1 + p.2) pts hne (by rw [heq])
  have hlen : (pts.map fun p => p.1 + p.2).length = 4 := by simpa using h4
  have h01 : (pts.map fun p => p.1 + p.2)[0] ≠ (pts.map fun p => p.1 + p.2)[1] :=
    List.pairwise_iff_getElem.mp hsum 0 1 (by omega) (by omega) (by omega)
  have hm0 : (pts.map fun p => p.1 + p.2)[0] ∈ pts.map fun p => p.1 + p.2 :=
    List.getElem_mem _
  have hm1 : (pts.map fun p => p.1 + p.2)[1] ∈ pts.map fun p => p.1 + p.2 :=
    List.getElem_mem _
  obtain ⟨p0, hp0, he0⟩ := List.mem_map.mp hm0
  obtain ⟨p1, hp1, he1⟩ := List.mem_map.mp hm1
  exact h01 (by rw [← he0, ← he1, hall p0 hp0, hall p1 hp1])

/-- Claim C1 (amended): for every set of 4 points with pairwise-distinct
coordinate sums and pairwise-distinct coordinate differences
(distinct, non-degenerate, axis-unambiguous), the corner classification of
`detect` assigns top-left the point of minimum x+y, bottom-right the point
of maximum x+y, and of the two remaining points, top-right the one with the
minimum y−x — equivalently the maximum x−y — while the other becomes
bottom-left. -/
theorem classifyCorners_corner_spec (pts : List (Int × Int)) (h4 : pts.length = 4)
    (hsum : (pts.map fun p => p.1 + p.2).Pairwise (· ≠ ·))
    (hdiff : (pts.map fun p => p.2 - p.1).Pairwise (· ≠ ·)) :
    ∃ tl tr br bl, classifyCorners pts = some (tl, tr, br, bl) ∧
      tl ∈ pts ∧ br ∈ pts ∧
      (∀ p ∈ pts, tl.1 + tl.2 ≤ p.1 + p.2) ∧
      (∀ p ∈ pts, p.1 + p.2 ≤ br.1 + br.2) ∧
      tr ∈ (pts.erase tl).erase br ∧ bl ∈ (pts.erase tl).erase br ∧ tr ≠ bl ∧
      (∀ p ∈ (pts.erase tl).erase br, tr.2 - tr.1 ≤ p.2 - p.1) ∧
      (∀ p ∈ (pts.erase tl).erase br, p.2 - p.1 ≤ bl.2 - bl.1) := by
  have hne : pts ≠ [] := by intro h; rw [h] at h4; simp at h4
  have htl_mem := getD_argmin_map_mem (fun p => p.1 + p.2) pts hne
  have hbr_mem := getD_argmax_map_mem (fun p => p.1 + p.2) pts hne
  have hne2 := tl_ne_br_of_pairwise_ne pts h4 hsum
  have hbr_in : pts.getD (argmax (pts.map fun p => p.1 + p.2)) (0, 0) ∈
      pts.erase (pts.getD (argmin (pts.map fun p => p.1 + p.2)) (0, 0)) :=
    (List.mem_erase_of_ne (Ne.symm hne2)).2 hbr_mem
  have h1 := deleteFirst_of_mem pts _ htl_mem
  have h2 := deleteFirst_of_mem _ _ hbr_in
  have key := classifyCorners_eq pts _ _ h1 h2
  set RED := (pts.erase (pts.getD (argmin (pts.map fun p => p.1 + p.2)) (0, 0))).erase
      (pts.getD (argmax (pts.map fun p => p.1 + p.2)) (0, 0)) with hRED
  have hredlen : RED.length = 2 := by
    rw [hRED, List.length_erase_of_mem hbr_in, List.length_erase_of_mem htl_mem, h4]
  obtain ⟨u, v, huv⟩ := List.length_eq_two.mp hredlen
  have hsubl : List.Sublist RED pts := by
    rw [hRED]
    exact (List.erase_sublist _ _).trans (List.erase_sublist _ _)
  have hd_uv : u.2 - u.1 ≠ v.2 - v.1 := by
    have hpw : (RED.map fun p => p.2 - p.1).Pairwise (· ≠ ·) :=
      hdiff.sublist (hsubl.map _)
    rw [huv] at hpw
    simpa [List.pairwise_cons] using hpw
  have hu_ne_v : u ≠ v := fun h => hd_uv (by rw [h])
  have htr : RED.getD (argmin (RED.map fun p => p.2 - p.1)) (0, 0) =
      if u.2 - u.1 ≤ v.2 - v.1 then u else v := by
    rw [huv]
    by_cases hc : u.2 - u.1 ≤ v.2 - v.1 <;>
      simp [argmin_cons_cons, argmin, hc, List.getD]
  have hbl : RED.getD (argmax (RED.map fun p => p.2 - p.1)) (0, 0) =
      if v.2 - v.1 ≤ u.2 - u.1 then u else v := by
    rw [huv]
    by_cases hc : v.2 - v.1 ≤ u.2 - u.1 <;>
      simp [argmax_cons_cons, argmax, hc, List.getD]
  refine ⟨_, _, _, _, key, htl_mem, hbr_mem,
    getD_argmin_map_le (fun p => p.1 + p.2) pts hne,
    le_getD_argmax_map (fun p => p.1 + p.2) pts hne, ?_, ?_, ?_, ?_, ?_⟩
  · rw [htr, ← hRED, huv]
    split <;> simp
  · rw [hbl, ← hRED, huv]
    split <;> simp
  · rw [htr, hbl]
    rcases lt_or_gt_of_ne hd_uv with hlt | hgt
    · rw [if_pos (le_of_lt hlt), if_neg (not_le.mpr hlt)]
      exact hu_ne_v
    · rw [if_neg (not_le.mpr hgt), if_pos (le_of_lt hgt)]
      exact hu_ne_v.symm
  · intro p hp
    rw [← hRED, huv] at hp
    rw [htr]
    rcases List.mem_cons.mp hp with rfl | hp2
    · split
      · exact le_refl _
      · rename_i hc
        exact le_of_lt (lt_of_not_le hc)
    · rcases List.mem_singleton.mp hp2 with rfl
      split
      · rename_i hc
        exact hc
      · exact le_refl _
  · intro p hp
    rw [← hRED, huv] at hp
    rw [hbl]
    rcases List.mem_cons.mp hp with rfl | hp2
    · split
      · exact le_refl _
      · rename_i hc
        exact le_of_lt (lt_of_not_le hc)
    · rcases List.mem_singleton.mp hp2 with rfl
      split
      · rename_i hc
        exact hc
      · exact le_refl _

/-- Claim C1, counterexample: on the distinct, non-degenerate,
axis-unambiguous points (0,0), (10,1), (12,12), (1,9) the classification
assigns top-right = (10,1) and bottom-left = (1,9), yet the bottom-left
point has the strictly smaller x−y of the two remaining points, so the
point assigned top-right does not have the minimum x−y as the claim
states (the code minimises `np.diff` = y−x instead). -/
theorem classifyCorners_diff_sign_counterexample :
    classifyCorners [(0, 0), (10, 1), (12, 12), (1, 9)] =
      some ((0, 0), (10, 1), (12, 12), (1, 9)) ∧
    ((1 : Int) - 9 < 10 - 1) := by decide

/-- Witness for `classifyCorners_corner_spec` at the concrete points
(0,0), (3,1), (9,8), (2,7). -/
theorem classifyCorners_corner_spec_witness :
    ∃ tl tr br bl,
      classifyCorners [((0 : Int), (0 : Int)), (3, 1), (9, 8), (2, 7)] =
        some (tl, tr, br, bl) ∧
      tl ∈ [((0 : Int), (0 : Int)), (3, 1), (9, 8), (2, 7)] ∧
      br ∈ [((0 : Int), (0 : Int)), (3, 1), (9, 8), (2, 7)] ∧
      (∀ p ∈ [((0 : Int), (0 : Int)), (3, 1), (9, 8), (2, 7)],
        tl.1 + tl.2 ≤ p.1 + p.2) ∧
      (∀ p ∈ [((0 : Int), (0 : Int)), (3, 1), (9, 8), (2, 7)],
        p.1 + p.2 ≤ br.1 + br.2) ∧
      tr ∈ ([((0 : Int), (0 : Int)), (3, 1), (9, 8), (2, 7)].erase tl).erase br ∧
      bl ∈ ([((0 : Int), (0 : Int)), (3, 1), (9, 8), (2, 7)].erase tl).erase br ∧
      tr ≠ bl ∧
      (∀ p ∈ ([((0 : Int), (0 : Int)), (3, 1), (9, 8), (2, 7)].erase tl).erase br,
        tr.2 - tr.1 ≤ p.2 - p.1) ∧
      (∀ p ∈ ([((0 : Int), (0 : Int)), (3, 1), (9, 8), (2, 7)].erase tl).erase br,
        p.2 - p.1 ≤ bl.2 - bl.1) :=
  classifyCorners_corner_spec [(0, 0), (3, 1), (9, 8), (2, 7)]
    (by decide) (by decide) (by decide)

/-- Claim C8 (amended): for every 4-point input, the corner classification
completes (all four corner roles assigned, ties by first-match iteration
order) except exactly when all four points have equal coordinate sums and
the first point occurs only once, in which case the second removal loop
finds no match and the source raises. -/
theorem classifyCorners_isSome_iff (pts : List (Int × Int)) (h4 : pts.length = 4) :
    (classifyCorners pts).isSome = true ↔
      ¬ ((∀ p ∈ pts, p.1 + p.2 = (pts.getD 0 (0, 0)).1 + (pts.getD 0 (0, 0)).2) ∧
        List.count (pts.getD 0 (0, 0)) pts = 1) := by
  have hne : pts ≠ [] := by intro h; rw [h] at h4; simp at h4
  have htl_mem := getD_argmin_map_mem (fun p => p.1 + p.2) pts hne
  have h1 := deleteFirst_of_mem pts _ htl_mem
  have hhead_mem : pts.getD 0 (0, 0) ∈ pts := by
    rw [List.getD_eq_getElem _ _ (by omega)]
    exact List.getElem_mem _
  by_cases hbr : pts.getD (argmax (pts.map fun p => p.1 + p.2)) (0, 0) ∈
      pts.erase (pts.getD (argmin (pts.map fun p => p.1 + p.2)) (0, 0))
  · have h2 := deleteFirst_of_mem _ _ hbr
    rw [classifyCorners_eq pts _ _ h1 h2]
    simp only [Option.isSome_some, true_iff]
    rintro ⟨hall, hcount⟩
    have hall' : ∀ y ∈ pts.map (fun p => p.1 + p.2),
        y = (pts.getD 0 (0, 0)).1 + (pts.getD 0 (0, 0)).2 := by
      intro y hy
      obtain ⟨p, hp, rfl⟩ := List.mem_map.mp hy
      exact hall p hp
    have hmin0 : argmin (pts.map fun p => p.1 + p.2) = 0 :=
      argmin_eq_zero _ _ (by simpa using hne) hall'
    have hmax0 : argmax (pts.map fun p => p.1 + p.2) = 0 :=
      argmax_eq_zero _ _ (by simpa using hne) hall'
    rw [hmin0, hmax0] at hbr
    have hpos : 0 < List.count (pts.getD 0 (0, 0)) (pts.erase (pts.getD 0 (0, 0))) :=
      List.count_pos_iff.mpr hbr
    rw [List.count_erase_self, hcount] at hpos
    simp at hpos
  · have h2 := deleteFirst_of_not_mem _ _ hbr
    have hnone : classifyCorners pts = none := by
      simp only [classifyCorners, h1, h2]
    rw [hnone]
    simp only [Option.isSome_none, Bool.false_eq_true, false_iff, not_not]
    have hbr_mem := getD_argmax_map_mem (fun p => p.1 + p.2) pts hne
    have heqtlbr : pts.getD (argmax (pts.map fun p => p.1 + p.2)) (0, 0) =
        pts.getD (argmin (pts.map fun p => p.1 + p.2)) (0, 0) := by
      by_contra hne2
      exact hbr ((List.mem_erase_of_ne hne2).2 hbr_mem)
    have hall : ∀ p ∈ pts, p.1 + p.2 =
        (pts.getD (argmin (pts.map fun p => p.1 + p.2)) (0, 0)).1 +
          (pts.getD (argmin (pts.map fun p => p.1 + p.2)) (0, 0)).2 :=
      all_eq_of_min_eq_max (fun p => p.1 + p.2) pts hne (by rw [heqtlbr])
    have hall' : ∀ y ∈ pts.map (fun p => p.1 + p.2),
        y = (pts.getD (argmin (pts.map fun p => p.1 + p.2)) (0, 0)).1 +
          (pts.getD (argmin (pts.map fun p => p.1 + p.2)) (0, 0)).2 := by
      intro y hy
      obtain ⟨p, hp, rfl⟩ := List.mem_map.mp hy
      exact hall p hp
    have hmin0 : argmin (pts.map fun p => p.1 + p.2) = 0 :=
      argmin_eq_zero _ _ (by simpa using hne) hall'
    rw [hmin0] at hall heqtlbr hbr h1 htl_mem
    refine ⟨hall, ?_⟩
    have hge1 : 1 ≤ List.count (pts.getD 0 (0, 0)) pts :=
      List.count_pos_iff.mpr hhead_mem
    by_contra hcnt
    have hge2 : 2 ≤ List.count (pts.getD 0 (0, 0)) pts := by omega
    have : 0 < List.count (pts.getD 0 (0, 0)) (pts.erase (pts.getD 0 (0, 0))) := by
      rw [List.count_erase_self]
      omega
    rw [heqtlbr] at hbr
    exact hbr (List.count_pos_iff.mp this)

/-- Claim C8, counterexample: the four distinct collinear points (0,3),
(1,2), (2,1), (3,0) all have coordinate sum 3, so the min-sum and max-sum
point coincide in the unique first point; the second removal loop never
matches and corner classification raises instead of completing, and
`detect` on a frame whose accepted 4-vertex candidate has these corners
propagates the error rather than proceeding. -/
theorem classifyCorners_collinear_crash :
    classifyCorners [(0, 3), (1, 2), (2, 1), (3, 0)] = none ∧
    detect (Img.raw 300 300 7)
      [⟨[(0, 3), (1, 2), (2, 1), (3, 0)], 12,
        fun _ => [(0, 3), (1, 2), (2, 1), (3, 0)]⟩] =
      .error .degenerateCorners := by
  constructor
  · decide
  · rfl

/-- Witness for `classifyCorners_isSome_iff` at the concrete points
(0,0), (10,1), (12,12), (1,9). -/
theorem classifyCorners_isSome_iff_witness :
    ([((0 : Int), (0 : Int)), (10, 1), (12, 12), (1, 9)].length = 4) ∧
      ((classifyCorners [((0 : Int), (0 : Int)), (10, 1), (12, 12), (1, 9)]).isSome = true ↔
        ¬ ((∀ p ∈ [((0 : Int), (0 : Int)), (10, 1), (12, 12), (1, 9)],
              p.1 + p.2 =
                ([((0 : Int), (0 : Int)), (10, 1), (12, 12), (1, 9)].getD 0 (0, 0)).1 +
                  ([((0 : Int), (0 : Int)), (10, 1), (12, 12), (1, 9)].getD 0 (0, 0)).2) ∧
          List.count ([((0 : Int), (0 : Int)), (10, 1), (12, 12), (1, 9)].getD 0 (0, 0))
            [((0 : Int), (0 : Int)), (10, 1), (12, 12), (1, 9)] = 1)) :=
  ⟨by decide, classifyCorners_isSome_iff [(0, 0), (10, 1), (12, 12), (1, 9)] (by decide)⟩

/-! ### Facts about the candidate scan and successful detections -/

theorem findSurfaceCnt_map_snd : ∀ (idx : ℕ) (l : List Contour),
    (findSurfaceCnt idx l).map Prod.snd =
      (l.find? fun c => (approxOf c).length == 4).map approxOf
  | _, [] => rfl
  | idx, c :: rest => by
    by_cases h : (c.approxPolyDP (POLY_ACC_CONST * c.arcLength)).length = 4
    · simp [findSurfaceCnt, List.find?_cons, approxOf, h]
    · simp only [findSurfaceCnt, List.find?_cons, approxOf, h, if_false]
      have hb : ((c.approxPolyDP (POLY_ACC_CONST * c.arcLength)).length == 4) = false := by
        simpa using h
      rw [hb]
      exact findSurfaceCnt_map_snd (idx + 1) rest

theorem findSurfaceCnt_mem : ∀ (idx : ℕ) (l : List Contour) (i : ℕ)
    (cnt : List (Int × Int)), findSurfaceCnt idx l = some (i, cnt) →
    ∃ c ∈ l, cnt = approxOf c
  | _, [], _, _ => by simp [findSurfaceCnt]
  | idx, c :: rest, i, cnt => by
    by_cases h : (c.approxPolyDP (POLY_ACC_CONST * c.arcLength)).length = 4
    · simp only [findSurfaceCnt, h, if_true]
      intro heq
      simp only [Option.some.injEq, Prod.mk.injEq] at heq
      obtain ⟨rfl, rfl⟩ := heq
      exact ⟨c, List.mem_cons_self _ _, rfl⟩
    · simp only [findSurfaceCnt, h, if_false]
      intro heq
      obtain ⟨d, hd, hcnt⟩ := findSurfaceCnt_mem (idx + 1) rest i cnt heq
      exact ⟨d, List.mem_cons_of_mem _ hd, hcnt⟩

/-- Every observable field of a successful `detect` result, expressed from
the candidate scan that produced it. -/
theorem detect_ok_some_spec (image : Img) (contours : List Contour)
    (ps : PlayingSurface) (h : detect image contours = .ok (some ps)) :
    ∃ idx cnt, findSurfaceCnt 0 (topFive contours) = some (idx, cnt) ∧
      (classifyCorners cnt).isSome = true ∧
      ps.contour = cnt ∧
      ps.area = contourArea cnt ∧
      ps.area_relative = contourArea cnt / ((image.height : ℚ) * (image.width : ℚ)) ∧
      ps.height = 800 ∧ ps.width = 1440 ∧
      ps.transform = Img.warped image 1440 800 ∧
      ps.img_cnt = Img.withContour (Img.resized image 300) idx ∧
      ps.dealer_region = (0, 720) ∧ ps.player_region = (721, 1440) ∧
      cutoff ≤ ps.area_relative ∧ ps.name = "primary" := by
  cases hf : findSurfaceCnt 0 (topFive contours) with
  | none => simp [detect, hf] at h
  | some val =>
    obtain ⟨idx, cnt⟩ := val
    cases hc : classifyCorners cnt with
    | none => simp [detect, hf, hc] at h
    | some corners =>
      obtain ⟨a, b, c2, d⟩ := corners
      simp only [detect, hf, hc] at h
      split_ifs at h with hcut
      · simp at h
      · simp only [Except.ok.injEq, Option.some.injEq] at h
        subst h
        refine ⟨idx, cnt, rfl, by rw [hc]; rfl, rfl, rfl, rfl, rfl, by norm_num,
          by norm_num, by norm_num, by norm_num, by norm_num,
          not_lt.mp hcut, rfl⟩

/-- Claim C5: every successful `detect` returns a surface with fixed output
dimensions height = 800 and width = 1440 = round(1.8 × 800), and its
rectified image has exactly these dimensions, regardless of the source
quadrilateral. -/
theorem detect_fixed_output_dims (image : Img) (contours : List Contour)
    (ps : PlayingSurface) (h : detect image contours = .ok (some ps)) :
    ps.height = 800 ∧ ps.width = 1440 ∧
    ps.transform.height = 800 ∧ ps.transform.width = 1440 := by
  obtain ⟨idx, cnt, -, -, -, -, -, hh, hw, htr, -, -, -, -, -⟩ :=
    detect_ok_some_spec image contours ps h
  exact ⟨hh, hw, by rw [htr]; rfl, by rw [htr]; rfl⟩

/-- Concrete evaluation: `detect` on a 300×300 frame whose only contour is
`boundContour` returns exactly `boundSurface`. -/
theorem detect_boundContour_eq :
    detect (Img.raw 300 300 0) [boundContour] = Except.ok (some boundSurface) := by
  have hf : findSurfaceCnt 0 (topFive [boundContour]) =
      some (0, [(0, 0), (60, 0), (60, 45), (0, 45)]) := by decide
  have hc : classifyCorners [(0, 0), (60, 0), (60, 45), (0, 45)] =
      some ((0, 0), (60, 0), (60, 45), (0, 45)) := by decide
  have hcond : ¬(contourArea [(0, 0), (60, 0), (60, 45), (0, 45)] /
      (((Img.raw 300 300 0).height : ℚ) * ((Img.raw 300 300 0).width : ℚ)) < cutoff) := by
    norm_num [contourArea, crossSum, cutoff, Img.height, Img.width]
  simp only [detect, hf, hc]
  rw [if_neg hcond]
  norm_num [boundSurface, PlayingSurface.mk.injEq, PerspectiveMatrix.mk.injEq,
    Prod.ext_iff, contourArea, crossSum, Img.height, Img.width]

/-- Witness for `detect_fixed_output_dims` on a 300×300 frame with the
boundary contour. -/
theorem detect_fixed_output_dims_witness :
    boundSurface.height = 800 ∧ boundSurface.width = 1440 ∧
    boundSurface.transform.height = 800 ∧ boundSurface.transform.width = 1440 :=
  detect_fixed_output_dims (Img.raw 300 300 0) [boundContour] boundSurface detect_boundContour_eq

/-- Claim C7: every successful `detect` returns `area_relative` equal to the
accepted candidate's polygon area measured in working-copy pixel units (the
stored contour is the un-scaled approximation of a top-five working-copy
contour) divided by the full-resolution frame's pixel area. -/
theorem detect_relative_area_units (image : Img) (contours : List Contour)
    (ps : PlayingSurface) (h : detect image contours = .ok (some ps)) :
    (∃ c ∈ topFive contours, ps.contour = approxOf c) ∧
    ps.area = contourArea ps.contour ∧
    ps.area_relative = contourArea ps.contour /
      ((image.height : ℚ) * (image.width : ℚ)) := by
  obtain ⟨idx, cnt, hf, -, hcont, harea, hrel, -, -, -, -, -, -, -, -⟩ :=
    detect_ok_some_spec image contours ps h
  obtain ⟨c, hc, hcnt⟩ := findSurfaceCnt_mem 0 _ idx cnt hf
  refine ⟨⟨c, hc, by rw [hcont, hcnt]⟩, ?_, ?_⟩
  · rw [hcont]; exact harea
  · rw [hcont]; exact hrel

/-- Witness for `detect_relative_area_units` on a 300×300 frame with the
boundary contour. -/
theorem detect_relative_area_units_witness :
    (∃ c ∈ topFive [boundContour], boundSurface.contour = approxOf c) ∧
    boundSurface.area = contourArea boundSurface.contour ∧
    boundSurface.area_relative = contourArea boundSurface.contour /
      (((Img.raw 300 300 0).height : ℚ) * ((Img.raw 300 300 0).width : ℚ)) :=
  detect_relative_area_units (Img.raw 300 300 0) [boundContour] boundSurface detect_boundContour_eq

/-- Claim C9: every successful `detect` returns `dealer_region` equal to the
column interval [0, width/2] and `player_region` equal to
[width/2 + 1, width]; with width = 1440 these are [0, 720] and [721, 1440]. -/
theorem detect_region_partition (image : Img) (contours : List Contour)
    (ps : PlayingSurface) (h : detect image contours = .ok (some ps)) :
    ps.width = 1440 ∧
    ps.dealer_region = (0, ps.width / 2) ∧
    ps.player_region = (ps.width / 2 + 1, ps.width) ∧
    ps.dealer_region = (0, 720) ∧ ps.player_region = (721, 1440) := by
  obtain ⟨idx, cnt, -, -, -, -, -, -, hw, -, -, hd, hp, -, -⟩ :=
    detect_ok_some_spec image contours ps h
  exact ⟨hw, by rw [hw, hd], by rw [hw, hp], hd, hp⟩

/-- Witness for `detect_region_partition` on a 300×300 frame with the
boundary contour. -/
theorem detect_region_partition_witness :
    boundSurface.width = 1440 ∧
    boundSurface.dealer_region = (0, boundSurface.width / 2) ∧
    boundSurface.player_region = (boundSurface.width / 2 + 1, boundSurface.width) ∧
    boundSurface.dealer_region = (0, 720) ∧ boundSurface.player_region = (721, 1440) :=
  detect_region_partition (Img.raw 300 300 0) [boundContour] boundSurface detect_boundContour_eq

/-- Claim C4: `detect` considers exactly the five largest-area contours in
descending area order (the ranked list is a permutation of the input, sorted
by descending area, and everything it drops has area at most everything it
keeps); the first ranked candidate whose polygon approximation has exactly 4
vertices is the accepted outline, and if none qualifies `detect` returns
nothing. -/
theorem detect_top_five_first_quad (image : Img) (contours : List Contour) :
    List.Perm (List.insertionSort contourGe contours) contours ∧
    List.Sorted contourGe (List.insertionSort contourGe contours) ∧
    (∀ a ∈ topFive contours, ∀ b ∈ (List.insertionSort contourGe contours).drop 5,
      contourArea b.points ≤ contourArea a.points) ∧
    (((topFive contours).find? fun c => (approxOf c).length == 4) = none →
      detect image contours = .ok none) ∧
    (∀ c, ((topFive contours).find? fun c => (approxOf c).length == 4) = some c →
      ∀ ps, detect image contours = .ok (some ps) → ps.contour = approxOf c) := by
  refine ⟨List.perm_insertionSort contourGe contours,
    List.sorted_insertionSort contourGe contours, ?_, ?_, ?_⟩
  · intro a ha b hb
    have hsor := List.sorted_insertionSort contourGe contours
    rw [← List.take_append_drop 5 (List.insertionSort contourGe contours)] at hsor
    exact (List.pairwise_append.mp hsor).2.2 a ha b hb
  · intro hnone
    have hf : findSurfaceCnt 0 (topFive contours) = none := by
      have hm := findSurfaceCnt_map_snd 0 (topFive contours)
      rw [hnone] at hm
      simpa using hm
    simp [detect, hf]
  · intro c hc ps hps
    obtain ⟨idx, cnt, hf, -, hcont, -, -, -, -, -, -, -, -, -, -⟩ :=
      detect_ok_some_spec image contours ps hps
    have hm := findSurfaceCnt_map_snd 0 (topFive contours)
    rw [hf, hc] at hm
    simp only [Option.map_some'] at hm
    rw [hcont]
    exact Option.some_inj.mp hm

/-- Witness for `detect_top_five_first_quad` with an empty candidate set. -/
theorem detect_top_five_first_quad_witness :
    detect (Img.raw 640 480 5) [] = .ok none :=
  (detect_top_five_first_quad (Img.raw 640 480 5) []).2.2.2.1 rfl

/-- Claim C3: once a candidate outline is accepted and classified, `detect`
returns nothing exactly when the relative area is strictly below the 0.03
cutoff, and returns a surface when it is at or above it — the acceptance
boundary is inclusive. -/
theorem detect_cutoff_boundary (image : Img) (contours : List Contour)
    (idx : ℕ) (cnt : List (Int × Int))
    (corners : (Int × Int) × (Int × Int) × (Int × Int) × (Int × Int))
    (hfind : findSurfaceCnt 0 (topFive contours) = some (idx, cnt))
    (hclass : classifyCorners cnt = some corners) :
    (contourArea cnt / ((image.height : ℚ) * (image.width : ℚ)) < cutoff →
      detect image contours = .ok none) ∧
    (cutoff ≤ contourArea cnt / ((image.height : ℚ) * (image.width : ℚ)) →
      ∃ ps, detect image contours = .ok (some ps) ∧
        ps.area_relative = contourArea cnt /
          ((image.height : ℚ) * (image.width : ℚ))) := by
  obtain ⟨a, b, c2, d⟩ := corners
  constructor
  · intro hlt
    simp only [detect, hfind, hclass]
    rw [if_pos hlt]
  · intro hge
    simp only [detect, hfind, hclass]
    rw [if_neg (not_lt.mpr hge)]
    exact ⟨_, rfl, rfl⟩

/-- Witness for `detect_cutoff_boundary`: relative area 2640/90000 is
rejected, relative area 2700/90000 = 0.03 is accepted. -/
theorem detect_cutoff_boundary_witness :
    detect (Img.raw 300 300 0) [lowContour] = .ok none ∧
    (∃ ps, detect (Img.raw 300 300 0) [boundContour] = .ok (some ps) ∧
      ps.area_relative = contourArea [(0, 0), (60, 0), (60, 45), (0, 45)] /
        (((Img.raw 300 300 0).height : ℚ) * ((Img.raw 300 300 0).width : ℚ))) := by
  constructor
  · exact (detect_cutoff_boundary (Img.raw 300 300 0) [lowContour] 0
      [(0, 0), (60, 0), (60, 44), (0, 44)] ((0, 0), (60, 0), (60, 44), (0, 44))
      (by decide) (by decide)).1
      (by norm_num [contourArea, crossSum, cutoff, Img.height, Img.width])
  · exact (detect_cutoff_boundary (Img.raw 300 300 0) [boundContour] 0
      [(0, 0), (60, 0), (60, 45), (0, 45)] ((0, 0), (60, 0), (60, 45), (0, 45))
      (by decide) (by decide)).2
      (by norm_num [contourArea, crossSum, cutoff, Img.height, Img.width])

/-! ### Facts about the acquisition loop -/

theorem tickOutput_snd (ps valid_surface : Option PlayingSurface) (a b : Img) :
    (tickOutput ps valid_surface a b).2 =
      match ps with | some p => some p | none => valid_surface := by
  cases ps <;> cases valid_surface <;> rfl

theorem lastDetected_cons (valid_surface : Option PlayingSurface) (t : TickInput)
    (l : List TickInput) :
    lastDetected valid_surface (t :: l) =
      lastDetected (match detectResult t with | some p => some p | none => valid_surface)
        l := rfl

theorem getSurfaceRun_elapsed :
    ∀ (c : ℕ) (valid_surface : Option PlayingSurface) (ticks : List TickInput),
      c ≤ ticks.length →
      (∀ t ∈ ticks, t.elapsedOver1 = true) →
      (∀ t ∈ ticks, t.cancel = false) →
      (∀ t ∈ ticks, ∃ o, detect t.frame t.contours = Except.ok o) →
      ∃ r, getSurfaceRun c valid_surface ticks = .ok r ∧
        r.decrements = c ∧ r.exitReason = .countdownZero ∧
        r.result = lastDetected valid_surface (ticks.take c) ∧
        r.emissions.length = c := by
  intro c
  induction c with
  | zero =>
    intro valid ticks _ _ _ _
    cases ticks with
    | nil => exact ⟨⟨[], valid, 0, .countdownZero⟩, rfl, rfl, rfl, rfl, rfl⟩
    | cons t rest => exact ⟨⟨[], valid, 0, .countdownZero⟩, rfl, rfl, rfl, rfl, rfl⟩
  | succ n ih =>
    intro valid ticks hlen hel hcan hok
    cases ticks with
    | nil => simp at hlen
    | cons t rest =>
      obtain ⟨o, ho⟩ := hok t (List.mem_cons_self _ _)
      have helt : t.elapsedOver1 = true := hel t (List.mem_cons_self _ _)
      have hcant : t.cancel = false := hcan t (List.mem_cons_self _ _)
      have hlen2 : n ≤ rest.length := by simpa using hlen
      obtain ⟨r, hr, hdec, hexit, hres, hlenE⟩ :=
        ih (tickOutput o valid
            (Img.withTimer (Img.resized t.frame 300) n) (Img.resized t.frame 300)).2
          rest hlen2 (fun u hu => hel u (List.mem_cons_of_mem _ hu))
          (fun u hu => hcan u (List.mem_cons_of_mem _ hu))
          (fun u hu => hok u (List.mem_cons_of_mem _ hu))
      have hdet : detectResult t = o := by simp [detectResult, ho]
      simp only [getSurfaceRun, ho, helt, hcant, ne_eq, Nat.succ_ne_zero,
        not_false_eq_true, and_self, if_true, Nat.add_sub_cancel,
        Bool.false_eq_true, if_false]
      rw [hr]
      refine ⟨_, rfl, ?_, hexit, ?_, ?_⟩
      · show 1 + r.decrements = n + 1
        omega
      · show r.result = lastDetected valid ((t :: rest).take (n + 1))
        rw [List.take_succ_cons, lastDetected_cons, hdet]
        rw [tickOutput_snd] at hres
        exact hres
      · show ((tickOutput o valid
            ((t.frame.resized 300).withTimer n) (t.frame.resized 300)).1 ::
              r.emissions).length = n + 1
        simp [hlenE]

/-- Claim C2 (amended): when every tick's elapsed-second test holds, no
cancellation occurs and no tick raises, the acquisition loop started with
`requestedCount` initializes its countdown to requestedCount + 1 and
terminates by countdown exhaustion after exactly requestedCount + 1
countdown decrements — one more than the requestedCount the claim states —
returning the last held surface, or nothing if no detection ever
succeeded. -/
theorem get_surface_countdown (count : ℕ) (ticks : List TickInput)
    (hlen : count + 1 ≤ ticks.length)
    (hel : ∀ t ∈ ticks, t.elapsedOver1 = true)
    (hcan : ∀ t ∈ ticks, t.cancel = false)
    (hok : ∀ t ∈ ticks, ∃ o, detect t.frame t.contours = Except.ok o) :
    ∃ r, get_surface ticks count = .ok r ∧
      r.decrements = count + 1 ∧ r.exitReason = .countdownZero ∧
      r.result = lastDetected none (ticks.take (count + 1)) := by
  obtain ⟨r, h1, h2, h3, h4, -⟩ :=
    getSurfaceRun_elapsed (count + 1) none ticks hlen hel hcan hok
  exact ⟨r, h1, h2, h3, h4⟩

/-- Claim C2, counterexample: started with requestedCount = 1 on a stream of
always-elapsing, never-cancelled ticks, the loop initialises its countdown
to 2 and runs until it reaches 0, performing 2 countdown decrements — not
exactly 1 as the claim states. -/
theorem get_surface_countdown_counterexample :
    (get_surface [tickFail 1, tickFail 2, tickFail 3] 1).map RunResult.decrements =
      Except.ok 2 ∧
    (get_surface [tickFail 1, tickFail 2, tickFail 3] 1).map RunResult.exitReason =
      Except.ok ExitReason.countdownZero := by
  constructor <;> rfl

/-- Witness for `get_surface_countdown` on two detection-failing ticks with
requestedCount = 1. -/
theorem get_surface_countdown_witness :
    ∃ r, get_surface [tickFail 6, tickFail 7] 1 = .ok r ∧
      r.decrements = 1 + 1 ∧ r.exitReason = .countdownZero ∧
      r.result = lastDetected none ([tickFail 6, tickFail 7].take (1 + 1)) :=
  get_surface_countdown 1 [tickFail 6, tickFail 7] (by decide) (by decide) (by decide)
    (fun t ht => by
      rcases List.mem_cons.mp ht with rfl | ht2
      · exact ⟨none, rfl⟩
      · rcases List.mem_singleton.mp ht2 with rfl
        exact ⟨none, rfl⟩)

/-- Concrete evaluation: `detect` at tick 2 of the C6 scenario returns
exactly `scenarioSurface1`. -/
theorem detect_scenario1 :
    detect (Img.raw 600 600 2) [quadContour 110] = Except.ok (some scenarioSurface1) := by
  have hf : findSurfaceCnt 0 (topFive [quadContour 110]) =
      some (0, [(0, 0), (110, 0), (110, 110), (0, 110)]) := by decide
  have hc : classifyCorners [(0, 0), (110, 0), (110, 110), (0, 110)] =
      some ((0, 0), (110, 0), (110, 110), (0, 110)) := by decide
  have hcond : ¬(contourArea [(0, 0), (110, 0), (110, 110), (0, 110)] /
      (((Img.raw 600 600 2).height : ℚ) * ((Img.raw 600 600 2).width : ℚ)) < cutoff) := by
    norm_num [contourArea, crossSum, cutoff, Img.height, Img.width]
  simp only [detect, hf, hc]
  rw [if_neg hcond]
  norm_num [scenarioSurface1, PlayingSurface.mk.injEq, PerspectiveMatrix.mk.injEq,
    Prod.ext_iff, contourArea, crossSum, Img.height, Img.width]

/-- Concrete evaluation: `detect` at tick 4 of the C6 scenario returns
exactly `scenarioSurface2`. -/
theorem detect_scenario2 :
    detect (Img.raw 600 600 4) [quadContour 120] = Except.ok (some scenarioSurface2) := by
  have hf : findSurfaceCnt 0 (topFive [quadContour 120]) =
      some (0, [(0, 0), (120, 0), (120, 120), (0, 120)]) := by decide
  have hc : classifyCorners [(0, 0), (120, 0), (120, 120), (0, 120)] =
      some ((0, 0), (120, 0), (120, 120), (0, 120)) := by decide
  have hcond : ¬(contourArea [(0, 0), (120, 0), (120, 120), (0, 120)] /
      (((Img.raw 600 600 4).height : ℚ) * ((Img.raw 600 600 4).width : ℚ)) < cutoff) := by
    norm_num [contourArea, crossSum, cutoff, Img.height, Img.width]
  simp only [detect, hf, hc]
  rw [if_neg hcond]
  norm_num [scenarioSurface2, PlayingSurface.mk.injEq, PerspectiveMatrix.mk.injEq,
    Prod.ext_iff, contourArea, crossSum, Img.height, Img.width]

/-- Claim C6: whenever detection fails while a surface is held, the tick
keeps the held surface unchanged and re-emits its rectified image (resized
to display height) alongside the not-found overlay; in particular, on the
frame sequence [fail, success(S1), fail, success(S2)] with countdown 3 the
emitted rectified frames of ticks 1-4 are [none, S1, S1, S2]. -/
theorem retained_surface_reemitted :
    (∀ (vs : PlayingSurface) (timer_disp orig_disp : Img),
      tickOutput none (some vs) timer_disp orig_disp =
        (⟨timer_disp, Img.withNotFound orig_disp,
          some (Img.resized vs.transform 300)⟩, some vs)) ∧
    (get_surface scenarioTicks 3).map (fun r => r.emissions.map Emission.rectFrame) =
      Except.ok [none,
        some (Img.resized scenarioSurface1.transform 300),
        some (Img.resized scenarioSurface1.transform 300),
        some (Img.resized scenarioSurface2.transform 300)] := by
  constructor
  · intro vs timer_disp orig_disp
    rfl
  · have h1 : detect (Img.raw 600 600 1) ([] : List Contour) = Except.ok none := rfl
    have h3 : detect (Img.raw 600 600 3) ([] : List Contour) = Except.ok none := rfl
    simp only [get_surface, scenarioTicks, tickFail, tickSuccess, getSurfaceRun,
      h1, h3, detect_scenario1, detect_scenario2, tickOutput]
    rfl

/-! ### The buffer-preservation property of `detect` -/

theorem readB_append_left (st ext : Store) (r : ℕ) (h : r < st.length) :
    readB (st ++ ext) r = readB st r := by
  simp [readB, List.getD, List.getElem?_append_left h]

theorem readB_set_ne (st : Store) (i : ℕ) (x : Img) (r : ℕ) (h : r ≠ i) :
    readB (st.set i x) r = readB st r := by
  simp [readB, List.getD, List.getElem?_set_ne (Ne.symm h)]

/-- Claim C10: `detect` never mutates the caller's frame buffer: every
image primitive it calls allocates a fresh buffer except `cv2.drawContours`,
which writes only to the freshly allocated working copy, so the input
buffer's content is unchanged after the call. -/
theorem detect_preserves_input_frame (st : Store) (imageRef : ℕ)
    (contours : List Contour) (h : imageRef < st.length) :
    readB (detectBuffers st imageRef contours) imageRef = readB st imageRef := by
  simp only [detectBuffers]
  split
  · iterate 6 rw [readB_append_left _ _ _ (by (try simp [List.length_append, List.length_set]); omega)]
  · split
    · rw [readB_set_ne _ _ _ _ (by (try simp [List.length_append, List.length_set]); omega)]
      iterate 6 rw [readB_append_left _ _ _ (by (try simp [List.length_append, List.length_set]); omega)]
    · rw [readB_append_left _ _ _
        (by (try simp [List.length_append, List.length_set]); omega)]
      rw [readB_set_ne _ _ _ _ (by (try simp [List.length_append, List.length_set]); omega)]
      iterate 6 rw [readB_append_left _ _ _ (by (try simp [List.length_append, List.length_set]); omega)]

/-- Witness for `detect_preserves_input_frame` on a one-buffer store. -/
theorem detect_preserves_input_frame_witness :
    readB (detectBuffers [Img.raw 5 5 9] 0 []) 0 = readB [Img.raw 5 5 9] 0 :=
  detect_preserves_input_frame [Img.raw 5 5 9] 0 [] (by decide)

end Surface
